import Mathlib

/-!
# fam100 telegram command layer (`telegram/commands.go`)

A shallow embedding of the command handlers of the fam100 telegram bot, and
the properties of its join protocol, rate limiter, channel listing and HTML
escaping.

Conventions of the embedding

* A Go `string` is the list of its bytes (`GoString`), every byte a natural
  number below 256.  All string literals of the modelled code are ASCII, so
  `lit` turns a literal into its bytes one character at a time.
* A Go `map` that is only looked up and updated by key is a function into
  `Option`; a map that is ranged over is the list of its entries; a
  `map[string]bool` that only ever stores `true` is the list of its keys.
* Sends on `b.out` and calls into collaborators that live outside this file
  (`game.Start()`, the timer helpers of `channel`) are recorded, in program
  order, as a list of `Effect`s returned next to the new state.
* A handler that can hit a run-time panic returns `none` in place of its value.
* The metrics counters and the log lines of the source carry no behaviour and
  are left out.
-/

set_option linter.unusedVariables false

namespace Fam100

/-! ## Strings -/

/-- A Go string: its sequence of bytes. -/
abbrev GoString := List Nat

/-- The bytes of an ASCII string literal. -/
def lit (s : String) : GoString := s.toList.map Char.toNat

/-- Worker of `Replace`: `skip` bytes of an occurrence just replaced are still
to be stepped over. -/
def replaceAux (old new : GoString) : Nat → GoString → GoString
  | _, [] => []
  | k + 1, _ :: cs => replaceAux old new k cs
  | 0, c :: cs =>
    if old.isPrefixOf (c :: cs) then new ++ replaceAux old new (old.length - 1) cs
    else c :: replaceAux old new 0 cs

/-- The call `strings.Replace(s, old, new, -1)` for a non-empty `old`: every
non-overlapping occurrence of `old`, found left to right, becomes `new`. -/
def Replace (s old new : GoString) : GoString := replaceAux old new 0 s

/-- The function `escape` of `commands.go`: three sequential replacements. -/
def escape (s : GoString) : GoString :=
  let s := Replace s (lit "&") (lit "&amp;")
  let s := Replace s (lit "<") (lit "&lt;")
  let s := Replace s (lit ">") (lit "&gt;")
  s

/-- The character-by-character substitution that `escape` is compared with:
`&` (38), `<` (60) and `>` (62) become their entities, every other byte stays. -/
def escapeByte (c : Nat) : GoString :=
  if c = 38 then lit "&amp;"
  else if c = 60 then lit "&lt;"
  else if c = 62 then lit "&gt;"
  else [c]

/-- The call `strings.Index(s, substr)`: the index of the first occurrence of
`substr` in `s`, or -1. -/
def Index (s substr : GoString) : Int :=
  match s with
  | [] => if substr = [] then 0 else -1
  | c :: cs =>
    if substr.isPrefixOf (c :: cs) then 0
    else
      let r := Index cs substr
      if r < 0 then -1 else r + 1

/-- The call `strings.LastIndex(s, substr)`: the index of the last occurrence
of `substr` in `s`, or -1. -/
def LastIndex (s substr : GoString) : Int :=
  match s with
  | [] => if substr = [] then 0 else -1
  | c :: cs =>
    let r := LastIndex cs substr
    if r ≥ 0 then r + 1
    else if substr.isPrefixOf (c :: cs) then 0
    else -1

/-- The call `strings.SplitN(s, sep, n)` for a non-empty `sep` and `n ≥ 0`: at
most `n` pieces, the last one the unsplit rest. -/
def SplitN (s sep : GoString) : Nat → List GoString
  | 0 => []
  | 1 => [s]
  | n + 2 =>
    let m := Index s sep
    if m < 0 then [s]
    else s.take m.toNat :: SplitN (s.drop (m.toNat + sep.length)) sep (n + 1)

/-- The slice expression `s[:hi]`; `none` is the run-time panic of a bound out
of range. -/
def sliceTo (s : GoString) (hi : Int) : Option GoString :=
  if 0 ≤ hi ∧ hi ≤ s.length then some (s.take hi.toNat) else none

/-- The assignment `m[k] = true` on the key set of a `map[string]bool`. -/
def setKey (m : List GoString) (k : GoString) : List GoString :=
  if k ∈ m then m else m ++ [k]

/-! ## Messages and the game engine interface -/

/-- The type `fam100.State`: the states of a game named by this file and by
the specification. -/
inductive State
  | Created
  | Queued
  | Started
  | Finished
deriving DecidableEq

/-- The type `fam100.Game`, reduced to the fields this file reads or writes. -/
structure Game where
  ID : Int
  State : State
deriving DecidableEq

/-- Modelled from the spec: the method `Game.Start` lives in package fam100,
outside this file.  By the data model of the specification a game "becomes
Started once quorum is met"; its round logic is out of scope. -/
def Game.Start (g : Game) : Game := { g with State := State.Started }

/-- The type `bot.Chat`. -/
structure Chat where
  ID : GoString
  Title : GoString
deriving DecidableEq

/-- The type `bot.User`; the field `FullName` holds the result of the method
`FullName()`. -/
structure User where
  ID : GoString
  FullName : GoString
deriving DecidableEq

/-- The type `bot.Format`. -/
inductive Format
  | Text
  | Markdown
  | HTML
deriving DecidableEq

/-- The type `bot.Message`.  The field `DiscardAfter` is `none` for the zero
time and `some n` for `time.Now().Add(n * time.Second)`. -/
structure Message where
  Chat : Chat
  From : User
  Text : GoString
  Format : Format
  DiscardAfter : Option Nat
deriving DecidableEq

/-- The composite literal `bot.Message{Chat: bot.Chat{ID: id}, Text: ..,
Format: .., DiscardAfter: ..}`: the fields it does not name are zero. -/
def outMessage (id text : GoString) (format : Format) (discardAfter : Option Nat) : Message :=
  { Chat := { ID := id, Title := [] }, From := { ID := [], FullName := [] },
    Text := text, Format := format, DiscardAfter := discardAfter }

/-- What a handler does to the world outside its own state, in program order. -/
inductive Effect
  /-- The send `b.out <- msg`. -/
  | send (msg : Message)
  /-- The call `ch.game.Start()`. -/
  | gameStart (chanID : GoString)
  /-- The assignment `game.State = fam100.Created` of the admission goroutine. -/
  | setCreated (chanID : GoString)
  /-- The call `ch.startQuorumTimer(wait * time.Second, b.out)`. -/
  | startQuorumTimer (chanID : GoString) (wait : Int)
  /-- The call `ch.startQuorumNotifyTimer(wait * time.Second, b.out)`. -/
  | startQuorumNotifyTimer (chanID : GoString) (wait : Int)
  /-- The call `ch.cancelTimer()`. -/
  | cancelTimer (chanID : GoString)
  /-- The call `ch.cancelNotifyTimer()`. -/
  | cancelNotifyTimer (chanID : GoString)
  /-- The goroutine blocks in `gameQueue <- struct{}{}`. -/
  | queueWait (chanID : GoString)
deriving DecidableEq

/-! ## The join protocol -/

/-- The type `channel` of package main, reduced to the fields `cmdJoin` uses.
The field `quorumPlayer` is the key set of the Go map (every stored value is
`true`); `cancelNotifyTimer` tells whether that field is non-nil. -/
structure channel where
  ID : GoString
  game : Game
  quorumPlayer : List GoString
  players : GoString → Option GoString
  cancelNotifyTimer : Bool

/-- Modelled from the spec: the method `channel.startQuorumNotifyTimer` lives
outside this file.  It arms the notify timer ("at most one active") and leaves
its cancel handle in the field `cancelNotifyTimer`; cancelling a handle, also
one never armed or already fired, is a safe no-op and keeps the field. -/
@[simp]
def channel.startQuorumNotifyTimer (ch : channel) : channel :=
  { ch with cancelNotifyTimer := true }

/-- Configuration and collaborators that `cmdJoin` reads but this file does
not define. -/
structure Env where
  /-- The package variable `minQuorum`. -/
  minQuorum : Int
  /-- The package variable `quorumWait`, in seconds. -/
  quorumWait : Int
  /-- The capacity `cap(gameQueue)`. -/
  queueCap : Nat
  /-- The call `fam100.DefaultDB.ChannelConfig(chanID, key, def)`: the value
  and the error (`none` for nil). -/
  ChannelConfig : GoString → GoString → GoString → GoString × Option GoString
  /-- The call `fam100.NewGame(chanID, chanName, gameIn, b.gameOut)`; `none`
  is a non-nil error. -/
  NewGame : GoString → GoString → Option Game
  /-- The formatted text of the queue notice (it prints a metric). -/
  queuedText : GoString

/-- The mutable state `cmdJoin` works on: `b.channels` and the number of
elements held by the package-level channel `gameQueue`. -/
structure fam100Bot where
  channels : GoString → Option channel
  gameQueue : Nat

/-- The assignment `b.channels[chanID] = ch`; with pointers in Go, it also
stands for every write through `ch`. -/
def fam100Bot.store (b : fam100Bot) (chanID : GoString) (ch : channel) : fam100Bot :=
  { b with channels := Function.update b.channels chanID (some ch) }

/-- The method `handleDisabled`: whether the channel is disabled, and the
message sent if it is. -/
def handleDisabled (env : Env) (msg : Message) : Bool × List Effect :=
  let chanID := msg.Chat.ID
  let disabledMsg := (env.ChannelConfig chanID (lit "disabled") []).1
  if disabledMsg ≠ [] then
    (true, [Effect.send (outMessage chanID disabledMsg Format.Markdown (some 5))])
  else (false, [])

/-- Outcome of one call of `cmdJoin`: the returned value, the new state, the
effects, and the channel id of the admission goroutine it started, if any. -/
structure JoinResult where
  ret : Bool
  b : fam100Bot
  effects : List Effect
  spawned : Option GoString

/-- The channel a first join creates: `&channel{ID: chanID, game: game,
quorumPlayer: quorumPlayer, players: players}` with the joining player as the
only member. -/
def newChannel (msg : Message) (game : Game) : channel :=
  { ID := msg.Chat.ID, game := game, quorumPlayer := [msg.From.ID],
    players := Function.update (fun _ => none) msg.From.ID (some msg.From.FullName),
    cancelNotifyTimer := false }

/-- The method `cmdJoin` up to the point where it returns; the goroutine it
starts is `admission`. -/
def cmdJoin (env : Env) (b : fam100Bot) (msg : Message) : JoinResult :=
  let dis := handleDisabled env msg
  if dis.1 then ⟨true, b, dis.2, none⟩
  else
    let chanID := msg.Chat.ID
    let chanName := msg.Chat.Title
    match b.channels chanID with
    | none =>
      -- create a new game
      match env.NewGame chanID chanName with
      | none => ⟨true, b, [], none⟩
      | some game =>
        let ch := newChannel msg game
        if (ch.quorumPlayer.length : Int) = env.minQuorum then
          ⟨true, b.store chanID { ch with game := ch.game.Start }, [Effect.gameStart chanID], none⟩
        else ⟨true, b.store chanID ch, [], some chanID⟩
    | some ch =>
      if ch.game.State = State.Queued ∨ ch.game.State = State.Created then
        -- new player joined
        let ch : channel :=
          { ch with
            quorumPlayer := setKey ch.quorumPlayer msg.From.ID,
            players := Function.update ch.players msg.From.ID (some msg.From.FullName) }
        if ch.game.State = State.Queued then ⟨true, b.store chanID ch, [], none⟩
        else
          -- state is Created, waiting for quorum
          if (ch.quorumPlayer.length : Int) ≥ env.minQuorum then
            ⟨true, b.store chanID { ch with game := ch.game.Start },
              [Effect.cancelTimer chanID]
                ++ (if ch.cancelNotifyTimer then [Effect.cancelNotifyTimer chanID] else [])
                ++ [Effect.gameStart chanID],
              none⟩
          else
            ⟨true, b.store chanID ch.startQuorumNotifyTimer,
              [Effect.cancelTimer chanID, Effect.startQuorumTimer chanID env.quorumWait]
                ++ (if ch.cancelNotifyTimer then []
                    else [Effect.startQuorumNotifyTimer chanID 5]),
              none⟩
      else if msg.From.ID ∈ ch.quorumPlayer then ⟨true, b, [], none⟩
      else ⟨true, b, [], none⟩

/-- The flag `shouldBeQueued` of the admission goroutine: false only when the
lookup of the key "queued" succeeds with the value "no". -/
def shouldBeQueued (env : Env) (chanID : GoString) : Bool :=
  match env.ChannelConfig chanID (lit "queued") [] with
  | (queueConf, none) => !(queueConf = lit "no")
  | (_, some _) => true

/-- The tail of the admission goroutine: arm the expiry and the notify timer. -/
def armTimers (env : Env) (b : fam100Bot) (chanID : GoString) (ch : channel) :
    fam100Bot × List Effect :=
  (b.store chanID ch.startQuorumNotifyTimer,
    [Effect.startQuorumTimer chanID env.quorumWait, Effect.startQuorumNotifyTimer chanID 5])

/-- The goroutine started by the first join of a channel (the admission step),
run until it ends or blocks on `gameQueue`. -/
def admission (env : Env) (b : fam100Bot) (chanID : GoString) : fam100Bot × List Effect :=
  match b.channels chanID with
  | none => (b, [])
  | some ch =>
    if b.gameQueue < env.queueCap then
      -- case gameQueue <- struct{}{}
      let r := armTimers env { b with gameQueue := b.gameQueue + 1 } chanID
        { ch with game := { ch.game with State := State.Created } }
      (r.1, Effect.setCreated chanID :: r.2)
    else if !shouldBeQueued env chanID then
      let r := armTimers env b chanID { ch with game := { ch.game with State := State.Created } }
      (r.1, Effect.setCreated chanID :: r.2)
    else
      -- it's waiting for the queue
      (b, [Effect.send (outMessage chanID env.queuedText Format.HTML (some 5)),
            Effect.queueWait chanID])

/-- The rest of a blocked admission goroutine, run once `gameQueue` accepts
its element. -/
def admissionResume (env : Env) (b : fam100Bot) (chanID : GoString) : fam100Bot × List Effect :=
  match b.channels chanID with
  | none => (b, [])
  | some ch =>
    let b := { b with gameQueue := b.gameQueue + 1 }
    let ch := { ch with game := { ch.game with State := State.Created } }
    -- maybe it's already quorum after finished waiting
    if (ch.quorumPlayer.length : Int) ≥ env.minQuorum then
      (b.store chanID { ch with game := ch.game.Start },
        [Effect.setCreated chanID, Effect.gameStart chanID])
    else
      let r := armTimers env b chanID ch
      (r.1, Effect.setCreated chanID :: r.2)

/-- One join event: `cmdJoin`, followed by the admission goroutine when the
call started one. -/
def joinEvent (env : Env) (b : fam100Bot) (msg : Message) : fam100Bot × List Effect :=
  let r := cmdJoin env b msg
  match r.spawned with
  | none => (r.b, r.effects)
  | some chanID =>
    let a := admission env r.b chanID
    (a.1, r.effects ++ a.2)

/-- A sequence of join events, one after the other, with no timer firing and
no slot released in between. -/
def runJoins (env : Env) : fam100Bot → List Message → fam100Bot × List Effect
  | b, [] => (b, [])
  | b, msg :: rest =>
    let r := joinEvent env b msg
    let rs := runJoins env r.1 rest
    (rs.1, r.2 ++ rs.2)

/-- The number of distinct player ids of a sequence of join messages. -/
def distinctPlayers (msgs : List Message) : Nat := (msgs.map (fun m => m.From.ID)).dedup.length

/-- The property C1 states of one run: the game of channel `c` has been
started exactly when the distinct players reached `minQuorum`. -/
def startedIffQuorum (env : Env) (b : fam100Bot) (c : GoString) (msgs : List Message) : Prop :=
  Effect.gameStart c ∈ (runJoins env b msgs).2 ↔ env.minQuorum ≤ (distinctPlayers msgs : Int)

/-- The channel whose game an effect admits or starts, if it does. -/
def Effect.admits : Effect → Option GoString
  | Effect.setCreated c => some c
  | Effect.gameStart c => some c
  | _ => none

/-- The channel whose game an effect admits (state set to `Created` by the
admission step), if it does. -/
def Effect.admitted : Effect → Option GoString
  | Effect.setCreated c => some c
  | _ => none

/-- The distinct channels, among those satisfying `keep`, whose game has been
admitted (state set to `Created` by the admission step) or started. -/
def admittedOrStarted (keep : GoString → Bool) (effs : List Effect) : List GoString :=
  ((effs.filterMap Effect.admits).filter keep).dedup

/-- The distinct channels, among those satisfying `keep`, that the admission
step has admitted. -/
def admittedChannels (keep : GoString → Bool) (effs : List Effect) : List GoString :=
  ((effs.filterMap Effect.admitted).filter keep).dedup

/-! ## The rate limiter -/

/-- The package variable `lastCmdRequest`: chat id to the time of its last
served request.  Times and durations are integers (nanoseconds). -/
abbrev LastCmdRequest := GoString → Option Int

/-- The function `rateLimited`: true when the call is to be ignored.  `now` is
the reading of `time.Now()`; the map is keyed by `chatID` alone. -/
def rateLimited (lastCmdRequest : LastCmdRequest) (now : Int) (cmd chatID : GoString)
    (duration : Int) : Bool × LastCmdRequest :=
  match lastCmdRequest chatID with
  | some lastTime =>
    if now < lastTime + duration then (true, lastCmdRequest)
    else (false, Function.update lastCmdRequest chatID (some now))
  | none => (false, Function.update lastCmdRequest chatID (some now))

/-- One call of the rate limiter: its arguments and the clock reading. -/
structure RateCall where
  cmd : GoString
  chatID : GoString
  now : Int

/-- The record of one call: its key, its time and the value it returned. -/
structure RateEntry where
  chatID : GoString
  now : Int
  limited : Bool
deriving DecidableEq

/-- Consecutive calls of `rateLimited` with one cooldown: the record of every
call and the final map. -/
def rateLimitedSeq (duration : Int) :
    LastCmdRequest → List RateCall → List RateEntry × LastCmdRequest
  | m, [] => ([], m)
  | m, c :: rest =>
    let r := rateLimited m c.now c.cmd c.chatID duration
    let rs := rateLimitedSeq duration r.2 rest
    (⟨c.chatID, c.now, r.1⟩ :: rs.1, rs.2)

/-- Whether a recorded call is an allowed call for the key `k`. -/
def allowedFor (k : GoString) (e : RateEntry) : Bool :=
  decide (e.chatID = k) && !e.limited

/-- The time of the most recent allowed call for the key `k` in a record. -/
def lastAllowed (k : GoString) (log : List RateEntry) : Option Int :=
  ((log.filter (allowedFor k)).getLast?).map (fun e => e.now)

/-! ## The channel listing -/

/-- Outcome of a command handler that may fault: the messages sent on `b.out`
so far and the returned value, `none` when the handler panicked. -/
structure CmdRun where
  out : List Message
  ret : Option Bool
deriving DecidableEq

/-- What `cmdChannels` reads from outside: the result of
`fam100.DefaultDB.Channels()` (the entries of the map, with distinct ids, and
the error), the function `regexp.Compile`, and the order in which `range`
visits the entries of a map. -/
structure ChannelsEnv where
  Channels : List (GoString × GoString) × Option GoString
  Compile : GoString → Except GoString (GoString → Bool)
  range : List (GoString × GoString) → List (GoString × GoString)

/-- The pointer `r` that `regexp.Compile` returns: nil (here `none`) next to an
error. -/
def regexpOf (compiled : Except GoString (GoString → Bool)) : Option (GoString → Bool) :=
  match compiled with
  | Except.ok f => some f
  | Except.error _ => none

/-- A loop that keeps the entries whose description `r.MatchString` accepts.
`r` is `none` for a nil `*regexp.Regexp`, whose first use panics. -/
def matchEntries (r : Option (GoString → Bool)) :
    List (GoString × GoString) → Option (List (GoString × GoString))
  | [] => some []
  | e :: rest =>
    match r with
    | none => none
    | some f =>
      match matchEntries r rest with
      | none => none
      | some l => some (if f e.2 then e :: l else l)

/-- What the second loop of `cmdChannels` writes to `buf` for the entries it
keeps: a newline, the id, a blank and the description of each. -/
def channelsBody (entries : List (GoString × GoString)) : GoString :=
  entries.flatMap (fun e => lit "\n" ++ e.1 ++ lit " " ++ e.2)

/-- The truncation of the body in `cmdChannels`. -/
def truncateBody (body : GoString) : Option GoString :=
  if body.length > 3000 then
    match sliceTo body 3000 with
    | none => none
    | some body =>
      match sliceTo body (LastIndex body (lit "\n")) with
      | none => none
      | some body => some (body ++ lit "\n ... truncated")
  else some body

/-- The method `cmdChannels`. -/
def cmdChannels (env : ChannelsEnv) (msg : Message) : CmdRun :=
  let fields := SplitN msg.Text (lit " ") 2
  if fields.length < 2 ∨ fields.getD 1 [] = [] then
    ⟨[outMessage msg.Chat.ID (lit "usage: `/channels [regex pattern]`") Format.Markdown none],
      some true⟩
  else
    let channels := env.Channels.1
    let out1 : List Message :=
      match env.Channels.2 with
      | some err =>
        [outMessage msg.Chat.ID (lit "channels failed. " ++ err) Format.Markdown none]
      | none => []
    -- filter out by regex
    let compiled := env.Compile (fields.getD 1 [])
    let r := regexpOf compiled
    let out2 : List Message :=
      match compiled with
      | Except.ok _ => []
      | Except.error err =>
        [outMessage msg.Chat.ID (lit "regex failed. " ++ err) Format.Markdown none]
    match matchEntries r (env.range channels) with
    | none => ⟨out1 ++ out2, none⟩
    | some results =>
      match matchEntries r (env.range results) with
      | none => ⟨out1 ++ out2, none⟩
      | some kept =>
        let text := lit "found " ++ lit (toString results.length) ++ lit " channels:"
        match truncateBody (channelsBody kept) with
        | none => ⟨out1 ++ out2, none⟩
        | some body =>
          ⟨out1 ++ out2 ++ [outMessage msg.Chat.ID (text ++ body) Format.Text none], some true⟩

/-! ## Concrete inputs -/

/-- The join message of player `p` in chat `c`. -/
def joinMsg (c p : GoString) : Message :=
  { Chat := { ID := c, Title := [] }, From := { ID := p, FullName := [] },
    Text := lit "/join", Format := Format.Text, DiscardAfter := none }

/-- A configuration with quorum 3 and one game slot, no channel disabled,
every channel queued, and new games in state `Queued`. -/
def exampleEnv : Env :=
  { minQuorum := 3, quorumWait := 120, queueCap := 1,
    ChannelConfig := fun _ _ d => (d, none),
    NewGame := fun _ _ => some ⟨0, State.Queued⟩,
    queuedText := lit "queued" }

/-- The configuration `exampleEnv` with the channel "Z" configured
`queued = "no"`. -/
def bypassEnv : Env :=
  { exampleEnv with
    ChannelConfig := fun c k d =>
      if c = lit "Z" ∧ k = lit "queued" then (lit "no", none) else (d, none) }

/-- The configuration `exampleEnv` with every channel disabled. -/
def disabledEnv : Env :=
  { exampleEnv with
    ChannelConfig := fun _ k d => if k = lit "disabled" then (lit "off", none) else (d, none) }

/-- The state at process start: no channel, no slot taken. -/
def emptyBot : fam100Bot := { channels := fun _ => none, gameQueue := 0 }

/-- The state after player "p1" joined channel "X": "X" is admitted, waits for
quorum and holds the only slot of `exampleEnv`. -/
def createdBot : fam100Bot := (joinEvent exampleEnv emptyBot (joinMsg (lit "X") (lit "p1"))).1

/-- Three joins of channel "Y" by three distinct players. -/
def threeJoins : List Message :=
  [joinMsg (lit "Y") (lit "p1"), joinMsg (lit "Y") (lit "p2"), joinMsg (lit "Y") (lit "p3")]

/-- A channel store with two channels, a `Compile` that rejects the pattern
"(" as Go does, and `range` in list order. -/
def channelsDemo : ChannelsEnv :=
  { Channels := ([(lit "1", lit "one"), (lit "2", lit "two")], none),
    Compile := fun p =>
      if p = lit "(" then Except.error (lit "error parsing regexp: missing closing ): `(`")
      else Except.ok (fun _ => true),
    range := id }

/-- A message with the given text, sent by user "u" in chat "me". -/
def textMsg (t : String) : Message :=
  { Chat := { ID := lit "me", Title := [] }, From := { ID := lit "u", FullName := [] },
    Text := lit t, Format := Format.Text, DiscardAfter := none }

/-! ## Lemmas on strings -/

theorem replaceAux_single (a : Nat) (new s : GoString) :
    replaceAux [a] new 0 s = s.flatMap (fun c => if c = a then new else [c]) := by
  induction s with
  | nil => rfl
  | cons c cs ih =>
    by_cases h : c = a
    · subst h
      simp [replaceAux, List.isPrefixOf, ih]
    · have h' : (a == c) = false := by
        simp only [beq_eq_false_iff_ne, ne_eq]
        exact fun e => h e.symm
      simp [replaceAux, List.isPrefixOf, ih, h, h']

theorem escape_eq_flatMap (s : GoString) : escape s = s.flatMap escapeByte := by
  have h1 : lit "&" = [38] := by decide
  have h2 : lit "<" = [60] := by decide
  have h3 : lit ">" = [62] := by decide
  simp only [escape, Replace, h1, h2, h3, replaceAux_single, List.flatMap_assoc]
  congr 1
  funext c
  have e1 : lit "&amp;" = [38, 97, 109, 112, 59] := by decide
  have e2 : lit "&lt;" = [38, 108, 116, 59] := by decide
  have e3 : lit "&gt;" = [38, 103, 116, 59] := by decide
  by_cases c38 : c = 38
  · subst c38
    simp [escapeByte, e1]
  · by_cases c60 : c = 60
    · subst c60
      simp [escapeByte, e2]
    · by_cases c62 : c = 62
      · subst c62
        simp [escapeByte, e3]
      · simp [escapeByte, c38, c60, c62]

theorem escapeByte_no_angle (c x : Nat) (hx : x ∈ escapeByte c) : x ≠ 60 ∧ x ≠ 62 := by
  have e1 : lit "&amp;" = [38, 97, 109, 112, 59] := by decide
  have e2 : lit "&lt;" = [38, 108, 116, 59] := by decide
  have e3 : lit "&gt;" = [38, 103, 116, 59] := by decide
  unfold escapeByte at hx
  rw [e1, e2, e3] at hx
  split_ifs at hx with h1 h2 h3
  · simp at hx; omega
  · simp at hx; omega
  · simp at hx; omega
  · simp at hx; subst hx; exact ⟨h2, h3⟩

theorem LastIndex_lt (a : Nat) (s : GoString) : LastIndex s [a] < s.length := by
  induction s with
  | nil => simp [LastIndex]
  | cons c cs ih =>
    simp only [LastIndex, List.length_cons]
    split_ifs <;> push_cast <;> omega

theorem LastIndex_head (a : Nat) (t : GoString) : 0 ≤ LastIndex (a :: t) [a] := by
  simp only [LastIndex]
  split_ifs with h1 h2
  · omega
  · omega
  · exfalso
    apply h2
    simp [List.isPrefixOf]

theorem LastIndex_get (a : Nat) (s : GoString) (k : Nat) (h : LastIndex s [a] = (k : Int)) :
    s.drop k = a :: s.drop (k + 1) := by
  induction s generalizing k with
  | nil => simp [LastIndex] at h
  | cons c cs ih =>
    simp only [LastIndex] at h
    split_ifs at h with h1 h2
    · cases k with
      | zero => omega
      | succ k =>
        have : LastIndex cs [a] = (k : Int) := by push_cast at h; omega
        simpa using ih k this
    · have hk : k = 0 := by omega
      subst hk
      have : a = c := by simpa [List.isPrefixOf] using h2
      subst this
      simp

theorem mem_setKey (q : List GoString) (p x : GoString) :
    x ∈ setKey q p ↔ x = p ∨ x ∈ q := by
  unfold setKey
  split_ifs with h
  · constructor
    · exact Or.inr
    · rintro (rfl | h')
      · exact h
      · exact h'
  · simp only [List.mem_append, List.mem_singleton]
    tauto

theorem nodup_setKey (q : List GoString) (p : GoString) (h : q.Nodup) : (setKey q p).Nodup := by
  unfold setKey
  split_ifs with hp
  · exact h
  · rw [List.nodup_append]
    refine ⟨h, List.nodup_singleton p, ?_⟩
    intro x hx hy
    rw [List.mem_singleton] at hy
    subst hy
    exact hp hx

theorem setKey_toFinset_union (q : List GoString) (p : GoString) (rest : List GoString) :
    (setKey q p).toFinset ∪ rest.toFinset = q.toFinset ∪ (p :: rest).toFinset := by
  ext x
  simp only [Finset.mem_union, List.mem_toFinset, mem_setKey, List.mem_cons]
  tauto

/-! ## Lemmas on the rate limiter -/

theorem rateLimitedSeq_append (d : Int) (m : LastCmdRequest) (xs ys : List RateCall) :
    rateLimitedSeq d m (xs ++ ys) =
      ((rateLimitedSeq d m xs).1 ++ (rateLimitedSeq d (rateLimitedSeq d m xs).2 ys).1,
        (rateLimitedSeq d (rateLimitedSeq d m xs).2 ys).2) := by
  induction xs generalizing m with
  | nil => simp [rateLimitedSeq]
  | cons c cs ih => simp [rateLimitedSeq, ih]

theorem lastAllowed_cons (k : GoString) (e : RateEntry) (log : List RateEntry) :
    lastAllowed k (e :: log) =
      match lastAllowed k log with
      | some t => some t
      | none => if e.chatID = k ∧ e.limited = false then some e.now else none := by
  unfold lastAllowed
  by_cases h : e.chatID = k ∧ e.limited = false
  · have h' : allowedFor k e = true := by simp [allowedFor, h.1, h.2]
    rw [List.filter_cons_of_pos h']
    cases hl : List.filter (allowedFor k) log with
    | nil => simp [h]
    | cons x xs =>
      rw [List.getLast?_cons_cons]
      rw [List.getLast?_eq_getLast _ (List.cons_ne_nil x xs)]
      rfl
  · have h' : ¬ allowedFor k e = true := by
      simpa [allowedFor] using h
    rw [List.filter_cons_of_neg h']
    cases hl : (List.filter (allowedFor k) log).getLast? with
    | none => simp [h]
    | some x => simp

theorem rateLimited_other (m : LastCmdRequest) (now : Int) (cmd c k : GoString) (d : Int)
    (h : c ≠ k) : (rateLimited m now cmd c d).2 k = m k := by
  unfold rateLimited
  split
  · split
    · rfl
    · simp [Function.update, h.symm]
  · simp [Function.update, h.symm]

theorem rateLimitedSeq_stored (d : Int) (k : GoString) (calls : List RateCall)
    (m : LastCmdRequest) :
    (rateLimitedSeq d m calls).2 k =
      match lastAllowed k (rateLimitedSeq d m calls).1 with
      | some t => some t
      | none => m k := by
  induction calls generalizing m with
  | nil => simp [rateLimitedSeq, lastAllowed]
  | cons c cs ih =>
    simp only [rateLimitedSeq]
    rw [ih, lastAllowed_cons]
    cases hl : lastAllowed k (rateLimitedSeq d (rateLimited m c.now c.cmd c.chatID d).2 cs).1 with
    | some t => rfl
    | none =>
      simp only
      by_cases hc : c.chatID = k
      · subst hc
        unfold rateLimited
        cases hm : m c.chatID with
        | none => simp [Function.update]
        | some lastTime =>
          by_cases hlt : c.now < lastTime + d
          · simp [hlt, hm]
          · simp [hlt, Function.update]
      · rw [rateLimited_other _ _ _ _ _ _ hc]
        simp [hc]

theorem lastAllowed_none_of_no_call (d : Int) (k : GoString) (pre : List RateCall)
    (m : LastCmdRequest) (h : ∀ c ∈ pre, c.chatID ≠ k) :
    lastAllowed k (rateLimitedSeq d m pre).1 = none := by
  induction pre generalizing m with
  | nil => simp [rateLimitedSeq, lastAllowed]
  | cons c cs ih =>
    simp only [rateLimitedSeq]
    rw [lastAllowed_cons, ih _ (fun x hx => h x (List.mem_cons_of_mem _ hx))]
    simp [h c (List.mem_cons_self _ _)]

theorem lastAllowed_some_of_call (d : Int) (k : GoString) (pre : List RateCall)
    (m : LastCmdRequest) (hm : m k = none) (h : ∃ c ∈ pre, c.chatID = k) :
    ∃ tl, lastAllowed k (rateLimitedSeq d m pre).1 = some tl := by
  induction pre generalizing m with
  | nil => simp at h
  | cons c cs ih =>
    simp only [rateLimitedSeq]
    rw [lastAllowed_cons]
    cases hl : lastAllowed k (rateLimitedSeq d (rateLimited m c.now c.cmd c.chatID d).2 cs).1 with
    | some t => exact ⟨t, rfl⟩
    | none =>
      by_cases hc : c.chatID = k
      · have hr : (rateLimited m c.now c.cmd c.chatID d).1 = false := by
          unfold rateLimited
          rw [hc, hm]
        exact ⟨c.now, by rw [if_pos ⟨hc, hr⟩]⟩
      · exfalso
        obtain ⟨x, hx, hxk⟩ := h
        rcases List.mem_cons.1 hx with rfl | hx'
        · exact hc hxk
        · have hm' : (rateLimited m c.now c.cmd c.chatID d).2 k = none := by
            rw [rateLimited_other _ _ _ _ _ _ hc]; exact hm
          obtain ⟨tl, htl⟩ := ih _ hm' ⟨x, hx', hxk⟩
          rw [hl] at htl
          cases htl

theorem rateLimited_fst (m : LastCmdRequest) (now : Int) (cmd k : GoString) (d : Int) :
    ((rateLimited m now cmd k d).1 = false ↔
      match m k with
      | none => True
      | some tl => tl + d ≤ now) ∧
    ((rateLimited m now cmd k d).1 = true → (rateLimited m now cmd k d).2 k = m k) ∧
    ((rateLimited m now cmd k d).1 = false → (rateLimited m now cmd k d).2 k = some now) := by
  unfold rateLimited
  cases hm : m k with
  | none => simp [Function.update]
  | some tl =>
    by_cases hlt : now < tl + d
    · simp [hlt, hm]
    · simp [hlt, Function.update]
      omega

/-! ## Lemmas on the join protocol -/

theorem handleDisabled_enabled (env : Env) (msg : Message)
    (h : (env.ChannelConfig msg.Chat.ID (lit "disabled") []).1 = []) :
    handleDisabled env msg = (false, []) := by
  simp [handleDisabled, h]

theorem store_same (b : fam100Bot) (c : GoString) (ch : channel) :
    (b.store c ch).channels c = some ch := by
  simp [fam100Bot.store]

theorem store_other (b : fam100Bot) (c c' : GoString) (ch : channel) (h : c' ≠ c) :
    (b.store c ch).channels c' = b.channels c' := by
  simp [fam100Bot.store, Function.update, h]

/-- A join on a channel whose game is neither `Queued` nor `Created` changes nothing. -/
theorem joinEvent_idle (env : Env) (b : fam100Bot) (msg : Message) (ch : channel)
    (hch : b.channels msg.Chat.ID = some ch)
    (hq : ch.game.State ≠ State.Queued) (hc : ch.game.State ≠ State.Created) :
    (joinEvent env b msg).1 = b ∧
      ∀ e ∈ (joinEvent env b msg).2, ∃ m, e = Effect.send m := by
  unfold joinEvent cmdJoin
  by_cases hd : (handleDisabled env msg).1 = true
  · simp only [hd, if_true]
    refine ⟨trivial, ?_⟩
    intro e he
    unfold handleDisabled at he
    simp only at he
    split_ifs at he with h1
    · simp at he
      exact ⟨_, he⟩
    · simp at he
  · simp [hd, hch, hq, hc]

/-- The join of an enabled channel in state `Created`. -/
theorem joinEvent_created (env : Env) (b : fam100Bot) (msg : Message) (ch : channel)
    (hdis : (env.ChannelConfig msg.Chat.ID (lit "disabled") []).1 = [])
    (hch : b.channels msg.Chat.ID = some ch) (hst : ch.game.State = State.Created) :
    joinEvent env b msg =
      if ((setKey ch.quorumPlayer msg.From.ID).length : Int) ≥ env.minQuorum then
        (b.store msg.Chat.ID
            { ch with
              quorumPlayer := setKey ch.quorumPlayer msg.From.ID,
              players := Function.update ch.players msg.From.ID (some msg.From.FullName),
              game := ch.game.Start },
          [Effect.cancelTimer msg.Chat.ID]
            ++ (if ch.cancelNotifyTimer then [Effect.cancelNotifyTimer msg.Chat.ID] else [])
            ++ [Effect.gameStart msg.Chat.ID])
      else
        (b.store msg.Chat.ID
            { ch with
              quorumPlayer := setKey ch.quorumPlayer msg.From.ID,
              players := Function.update ch.players msg.From.ID (some msg.From.FullName),
              cancelNotifyTimer := true },
          [Effect.cancelTimer msg.Chat.ID, Effect.startQuorumTimer msg.Chat.ID env.quorumWait]
            ++ (if ch.cancelNotifyTimer then []
                else [Effect.startQuorumNotifyTimer msg.Chat.ID 5])) := by
  unfold joinEvent cmdJoin
  rw [handleDisabled_enabled env msg hdis]
  simp only [hch, hst]
  split_ifs <;> simp_all

/-- From the state `Created` with fewer than `minQuorum` players, the game is
started exactly when the players already in the set together with the joining
ones reach `minQuorum`. -/
theorem runJoins_created (env : Env) (c : GoString) (msgs : List Message) (b : fam100Bot)
    (ch : channel)
    (hdis : (env.ChannelConfig c (lit "disabled") []).1 = [])
    (hmsgs : ∀ m ∈ msgs, m.Chat.ID = c)
    (hch : b.channels c = some ch) (hst : ch.game.State = State.Created)
    (hnd : ch.quorumPlayer.Nodup) (hlt : (ch.quorumPlayer.length : Int) < env.minQuorum) :
    Effect.gameStart c ∈ (runJoins env b msgs).2 ↔
      env.minQuorum ≤
        ((ch.quorumPlayer.toFinset ∪ (msgs.map (fun m => m.From.ID)).toFinset).card : Int) := by
  induction msgs generalizing b ch with
  | nil =>
    simp only [runJoins, List.not_mem_nil, List.map_nil, List.toFinset_nil, Finset.union_empty,
      false_iff, not_le]
    rw [List.toFinset_card_of_nodup hnd]
    exact hlt
  | cons m rest ih =>
    have hm : m.Chat.ID = c := hmsgs m (List.mem_cons_self _ _)
    have hrest : ∀ x ∈ rest, x.Chat.ID = c := fun x hx => hmsgs x (List.mem_cons_of_mem _ hx)
    have hnd' : (setKey ch.quorumPlayer m.From.ID).Nodup := nodup_setKey _ _ hnd
    have hstep := joinEvent_created env b m ch (by rw [hm]; exact hdis) (by rw [hm]; exact hch) hst
    rw [hm] at hstep
    simp only [runJoins, List.map_cons]
    rw [← setKey_toFinset_union]
    by_cases hge : ((setKey ch.quorumPlayer m.From.ID).length : Int) ≥ env.minQuorum
    · rw [if_pos hge] at hstep
      rw [hstep]
      constructor
      · intro _
        have h1 : (setKey ch.quorumPlayer m.From.ID).toFinset.card ≤
            ((setKey ch.quorumPlayer m.From.ID).toFinset ∪
              (rest.map (fun m => m.From.ID)).toFinset).card :=
          Finset.card_le_card Finset.subset_union_left
        rw [List.toFinset_card_of_nodup hnd'] at h1
        omega
      · intro _
        simp
    · rw [if_neg hge] at hstep
      rw [hstep]
      have hno : Effect.gameStart c ∉
          [Effect.cancelTimer c, Effect.startQuorumTimer c env.quorumWait]
            ++ (if ch.cancelNotifyTimer then []
                else [Effect.startQuorumNotifyTimer c 5]) := by
        split_ifs <;> simp
      rw [List.mem_append, or_iff_right hno]
      exact ih (b.store c
            { ch with
              quorumPlayer := setKey ch.quorumPlayer m.From.ID,
              players := Function.update ch.players m.From.ID (some m.From.FullName),
              cancelNotifyTimer := true })
          { ch with
            quorumPlayer := setKey ch.quorumPlayer m.From.ID,
            players := Function.update ch.players m.From.ID (some m.From.FullName),
            cancelNotifyTimer := true }
          hrest (store_same _ _ _) hst hnd' (not_le.1 hge)

/-- The first join of an enabled channel whose game can be built. -/
theorem cmdJoin_first (env : Env) (b : fam100Bot) (msg : Message) (game : Game)
    (hdis : (env.ChannelConfig msg.Chat.ID (lit "disabled") []).1 = [])
    (hfresh : b.channels msg.Chat.ID = none)
    (hnew : env.NewGame msg.Chat.ID msg.Chat.Title = some game) :
    cmdJoin env b msg =
      if (1 : Int) = env.minQuorum then
        ⟨true, b.store msg.Chat.ID { newChannel msg game with game := game.Start },
          [Effect.gameStart msg.Chat.ID], none⟩
      else ⟨true, b.store msg.Chat.ID (newChannel msg game), [], some msg.Chat.ID⟩ := by
  unfold cmdJoin
  rw [handleDisabled_enabled env msg hdis]
  simp only [hfresh, hnew]
  simp [newChannel]

/-- The admission goroutine when it does not have to wait: a slot is free or
the channel is not to be queued. -/
theorem admission_admitted (env : Env) (b : fam100Bot) (c : GoString) (ch : channel)
    (hch : b.channels c = some ch)
    (hadm : b.gameQueue < env.queueCap ∨ shouldBeQueued env c = false) :
    (admission env b c).2 =
        [Effect.setCreated c, Effect.startQuorumTimer c env.quorumWait,
          Effect.startQuorumNotifyTimer c 5] ∧
      (admission env b c).1.channels c =
        some { ch with game := { ch.game with State := State.Created },
                       cancelNotifyTimer := true } := by
  unfold admission
  simp only [hch]
  by_cases hfree : b.gameQueue < env.queueCap
  · simp [hfree, armTimers, fam100Bot.store]
  · have hq : shouldBeQueued env c = false := hadm.resolve_left hfree
    simp [hfree, hq, armTimers, fam100Bot.store]

/-- A blocked admission goroutine that gets its slot when the channel is at
quorum takes the slot and starts the game without arming a timer. -/
theorem admissionResume_at_quorum (env : Env) (b : fam100Bot) (c : GoString) (ch : channel)
    (hch : b.channels c = some ch) (hq : (ch.quorumPlayer.length : Int) ≥ env.minQuorum) :
    (admissionResume env b c).2 = [Effect.setCreated c, Effect.gameStart c] ∧
      (admissionResume env b c).1.gameQueue = b.gameQueue + 1 := by
  unfold admissionResume
  simp [hch, hq, fam100Bot.store]

/-- A call of `cmdJoin` that starts the admission goroutine is the first join
of its channel: it stored the new channel, unstarted, and did nothing else. -/
theorem cmdJoin_spawned (env : Env) (b : fam100Bot) (msg : Message) (c : GoString)
    (hspawn : (cmdJoin env b msg).spawned = some c) :
    b.channels msg.Chat.ID = none ∧ c = msg.Chat.ID ∧
      ∃ game, env.NewGame msg.Chat.ID msg.Chat.Title = some game ∧
        cmdJoin env b msg =
          ⟨true, b.store msg.Chat.ID (newChannel msg game), [], some msg.Chat.ID⟩ := by
  unfold cmdJoin at hspawn ⊢
  by_cases hd : (handleDisabled env msg).1 = true
  · simp [hd] at hspawn
  · have hd' : (handleDisabled env msg).1 = false := by simpa using hd
    simp only [hd', Bool.false_eq_true, if_false] at hspawn ⊢
    cases hch : b.channels msg.Chat.ID with
    | some ch =>
      rw [hch] at hspawn
      simp only at hspawn
      split_ifs at hspawn 
    | none =>
      rw [hch] at hspawn
      cases hg : env.NewGame msg.Chat.ID msg.Chat.Title with
      | none => simp [hg] at hspawn
      | some game =>
        simp only [hg] at hspawn ⊢
        by_cases h1 : ((newChannel msg game).quorumPlayer.length : Int) = env.minQuorum
        · simp [h1] at hspawn
        · simp only [h1, if_false, Option.some.injEq] at hspawn ⊢
          exact ⟨trivial, hspawn.symm, game, rfl, rfl⟩

/-- The shapes one join event can take, as far as admission is concerned. -/
theorem joinEvent_shape (env : Env) (b : fam100Bot) (msg : Message)
    (hNew : ∀ c t g, env.NewGame c t = some g → g.State = State.Queued)
    (hmin : env.minQuorum ≠ 1) :
    ((joinEvent env b msg).1 = b ∧ (joinEvent env b msg).2.filterMap Effect.admits = []) ∨
    (b.gameQueue < env.queueCap ∧
      (joinEvent env b msg).2.filterMap Effect.admits = [msg.Chat.ID] ∧
      ∃ ch, (joinEvent env b msg).1 =
        { channels := Function.update b.channels msg.Chat.ID (some ch),
          gameQueue := b.gameQueue + 1 }) ∨
    (shouldBeQueued env msg.Chat.ID = false ∧
      (joinEvent env b msg).2.filterMap Effect.admits = [msg.Chat.ID] ∧
      ∃ ch, (joinEvent env b msg).1 = b.store msg.Chat.ID ch) ∨
    ((joinEvent env b msg).2.filterMap Effect.admits = [] ∧
      ∃ ch, ch.game.State = State.Queued ∧ (joinEvent env b msg).1 = b.store msg.Chat.ID ch) ∨
    ((∃ ch, b.channels msg.Chat.ID = some ch ∧ ch.game.State = State.Created) ∧
      (∀ x ∈ (joinEvent env b msg).2.filterMap Effect.admits, x = msg.Chat.ID) ∧
      ∃ ch, (joinEvent env b msg).1 = b.store msg.Chat.ID ch) := by
  by_cases hd : (handleDisabled env msg).1 = true
  · left
    have : joinEvent env b msg = (b, (handleDisabled env msg).2) := by
      unfold joinEvent cmdJoin
      simp [hd]
    rw [this]
    refine ⟨rfl, ?_⟩
    unfold handleDisabled
    simp only
    split_ifs <;> simp [Effect.admits]
  · have hd' : (handleDisabled env msg).1 = false := by simpa using hd
    cases hch : b.channels msg.Chat.ID with
    | none =>
      cases hg : env.NewGame msg.Chat.ID msg.Chat.Title with
      | none =>
        left
        unfold joinEvent cmdJoin
        simp [hd', hch, hg]
      | some game =>
        have hone : ¬ ((newChannel msg game).quorumPlayer.length : Int) = env.minQuorum := by
          simp only [newChannel, List.length_singleton]
          intro h
          exact hmin h.symm
        have hres : cmdJoin env b msg =
            ⟨true, b.store msg.Chat.ID (newChannel msg game), [], some msg.Chat.ID⟩ := by
          unfold cmdJoin
          simp only [hd', hch, hg]
          simp [hone]
        unfold joinEvent
        rw [hres]
        simp only
        unfold admission
        simp only [store_same]
        by_cases hfree : b.gameQueue < env.queueCap
        · right; left
          refine ⟨hfree, ?_, ?_⟩
          · simp [fam100Bot.store, hfree, armTimers, Effect.admits]
          · simp [fam100Bot.store, hfree, armTimers]
            exact ⟨_, rfl⟩
        · by_cases hq : shouldBeQueued env msg.Chat.ID = true
          · right; right; right; left
            refine ⟨?_, newChannel msg game, hNew _ _ _ hg, ?_⟩
            · simp [fam100Bot.store, hfree, hq, Effect.admits]
            · simp [fam100Bot.store, hfree, hq]
          · have hq' : shouldBeQueued env msg.Chat.ID = false := by simpa using hq
            right; right; left
            refine ⟨hq', ?_, ?_⟩
            · simp [fam100Bot.store, hfree, hq', armTimers, Effect.admits]
            · simp [fam100Bot.store, hfree, hq', armTimers]
              exact ⟨_, rfl⟩
    | some ch =>
      by_cases hq : ch.game.State = State.Queued
      · right; right; right; left
        unfold joinEvent cmdJoin
        simp only [hd', hch]
        simp [hq]
        refine ⟨_, ?_, rfl⟩
        exact hq
      · by_cases hc : ch.game.State = State.Created
        · right; right; right; right
          refine ⟨⟨ch, rfl, hc⟩, ?_⟩
          have hdis : (env.ChannelConfig msg.Chat.ID (lit "disabled") []).1 = [] := by
            unfold handleDisabled at hd'
            simp only at hd'
            split_ifs at hd' with h
            exact not_not.1 h
          rw [joinEvent_created env b msg ch hdis hch hc]
          split_ifs <;> simp [Effect.admits]
        · left
          have := joinEvent_idle env b msg ch hch hq hc
          refine ⟨this.1, ?_⟩
          rw [List.filterMap_eq_nil_iff]
          intro e he
          obtain ⟨m, rfl⟩ := this.2 e he
          rfl

theorem store_channels (b : fam100Bot) (c c' : GoString) (ch ch' : channel)
    (h : (b.store c ch).channels c' = some ch') :
    (c' = c ∧ ch' = ch) ∨ (c' ≠ c ∧ b.channels c' = some ch') := by
  by_cases hc : c' = c
  · subst hc
    rw [store_same] at h
    exact Or.inl ⟨rfl, (Option.some.inj h).symm⟩
  · rw [store_other _ _ _ _ hc] at h
    exact Or.inr ⟨hc, h⟩

/-- One join event keeps the admission invariant: the occupied slots stay
within the capacity, the channels admitted through the queue are no more than
the occupied slots, and every channel whose game left `Queued` was admitted or
started. -/
theorem joinEvent_invariant (env : Env) (b : fam100Bot) (msg : Message) (effs : List Effect)
    (hNew : ∀ c t g, env.NewGame c t = some g → g.State = State.Queued)
    (hmin : env.minQuorum ≠ 1)
    (h1 : b.gameQueue ≤ env.queueCap)
    (h2 : ((effs.filterMap Effect.admits).filter (shouldBeQueued env)).toFinset.card
      ≤ b.gameQueue)
    (h3 : ∀ c ch, b.channels c = some ch → ch.game.State ≠ State.Queued →
      c ∈ effs.filterMap Effect.admits) :
    (joinEvent env b msg).1.gameQueue ≤ env.queueCap ∧
    (((effs ++ (joinEvent env b msg).2).filterMap Effect.admits).filter
      (shouldBeQueued env)).toFinset.card ≤ (joinEvent env b msg).1.gameQueue ∧
    (∀ c ch, (joinEvent env b msg).1.channels c = some ch → ch.game.State ≠ State.Queued →
      c ∈ (effs ++ (joinEvent env b msg).2).filterMap Effect.admits) := by
  simp only [List.filterMap_append, List.filter_append, List.toFinset_append, List.mem_append]
  rcases joinEvent_shape env b msg hNew hmin with
    ⟨hb, hs⟩ | ⟨hfree, hs, ch, hb⟩ | ⟨hkeep, hs, ch, hb⟩ | ⟨hs, ch, hst, hb⟩ |
    ⟨⟨ch0, hch0, hst0⟩, hs, ch, hb⟩
  · rw [hb, hs]
    refine ⟨h1, by simpa using h2, fun c ch hc hq => Or.inl (h3 c ch hc hq)⟩
  · rw [hb, hs]
    refine ⟨hfree, ?_, ?_⟩
    · refine le_trans (Finset.card_union_le _ _) ?_
      have : ([msg.Chat.ID].filter (shouldBeQueued env)).toFinset.card ≤ 1 := by
        by_cases hk : shouldBeQueued env msg.Chat.ID = true <;> simp [List.filter, hk]
      simp only
      omega
    · intro c ch' hc hq
      by_cases hcc : c = msg.Chat.ID
      · right; simp [hcc]
      · left
        simp only [Function.update, hcc, dite_false] at hc
        exact h3 c ch' hc hq
  · rw [hb, hs]
    refine ⟨h1, ?_, ?_⟩
    · simpa [List.filter, hkeep, fam100Bot.store] using h2
    · intro c ch' hc hq
      rcases store_channels _ _ _ _ _ hc with ⟨hcc, _⟩ | ⟨_, hc'⟩
      · right; simp [hcc]
      · exact Or.inl (h3 c ch' hc' hq)
  · rw [hb, hs]
    refine ⟨h1, by simpa [fam100Bot.store] using h2, ?_⟩
    intro c ch' hc hq
    rcases store_channels _ _ _ _ _ hc with ⟨_, hch⟩ | ⟨_, hc'⟩
    · rw [hch] at hq
      exact absurd hst hq
    · exact Or.inl (h3 c ch' hc' hq)
  · have hmem : msg.Chat.ID ∈ effs.filterMap Effect.admits :=
      h3 _ ch0 hch0 (by rw [hst0]; decide)
    rw [hb]
    refine ⟨h1, ?_, ?_⟩
    · have hsub : (((joinEvent env b msg).2.filterMap Effect.admits).filter
          (shouldBeQueued env)).toFinset ⊆
          ((effs.filterMap Effect.admits).filter (shouldBeQueued env)).toFinset := by
        intro x hx
        simp only [List.mem_toFinset, List.mem_filter] at hx ⊢
        have hxc := hs x hx.1
        subst hxc
        exact ⟨hmem, hx.2⟩
      rw [Finset.union_eq_left.2 hsub]
      simpa [fam100Bot.store] using h2
    · intro c ch' hc hq
      rcases store_channels _ _ _ _ _ hc with ⟨hcc, _⟩ | ⟨_, hc'⟩
      · left; rw [hcc]; exact hmem
      · exact Or.inl (h3 c ch' hc' hq)

theorem runJoins_invariant (env : Env)
    (hNew : ∀ c t g, env.NewGame c t = some g → g.State = State.Queued)
    (hmin : env.minQuorum ≠ 1) (msgs : List Message) (b : fam100Bot) (effs : List Effect)
    (h1 : b.gameQueue ≤ env.queueCap)
    (h2 : ((effs.filterMap Effect.admits).filter (shouldBeQueued env)).toFinset.card
      ≤ b.gameQueue)
    (h3 : ∀ c ch, b.channels c = some ch → ch.game.State ≠ State.Queued →
      c ∈ effs.filterMap Effect.admits) :
    (runJoins env b msgs).1.gameQueue ≤ env.queueCap ∧
    (((effs ++ (runJoins env b msgs).2).filterMap Effect.admits).filter
      (shouldBeQueued env)).toFinset.card ≤ (runJoins env b msgs).1.gameQueue := by
  induction msgs generalizing b effs with
  | nil =>
    simp only [runJoins, List.append_nil]
    exact ⟨h1, h2⟩
  | cons m rest ih =>
    obtain ⟨g1, g2, g3⟩ := joinEvent_invariant env b m effs hNew hmin h1 h2 h3
    have := ih (joinEvent env b m).1 (effs ++ (joinEvent env b m).2) g1 g2 g3
    simp only [runJoins]
    rw [← List.append_assoc]
    exact this

/-- One join event either leaves the occupied slots alone and admits at most
channels that are not to be queued, or takes a free slot and admits its own
channel. -/
theorem joinEvent_slots (env : Env) (b : fam100Bot) (msg : Message) :
    ((joinEvent env b msg).1.gameQueue = b.gameQueue ∧
      ∀ x ∈ (joinEvent env b msg).2.filterMap Effect.admitted,
        shouldBeQueued env x = false) ∨
    (b.gameQueue < env.queueCap ∧ (joinEvent env b msg).1.gameQueue = b.gameQueue + 1 ∧
      (joinEvent env b msg).2.filterMap Effect.admitted = [msg.Chat.ID]) := by
  by_cases hd : (handleDisabled env msg).1 = true
  · left
    have : joinEvent env b msg = (b, (handleDisabled env msg).2) := by
      unfold joinEvent cmdJoin
      simp [hd]
    rw [this]
    refine ⟨rfl, ?_⟩
    unfold handleDisabled
    simp only
    split_ifs <;> simp [Effect.admitted]
  · have hd' : (handleDisabled env msg).1 = false := by simpa using hd
    cases hch : b.channels msg.Chat.ID with
    | none =>
      cases hg : env.NewGame msg.Chat.ID msg.Chat.Title with
      | none =>
        left
        unfold joinEvent cmdJoin
        simp [hd', hch, hg]
      | some game =>
        by_cases hone : ((newChannel msg game).quorumPlayer.length : Int) = env.minQuorum
        · left
          unfold joinEvent cmdJoin
          simp only [hd', hch, hg]
          simp [hone, fam100Bot.store, Effect.admitted]
        · have hres : cmdJoin env b msg =
              ⟨true, b.store msg.Chat.ID (newChannel msg game), [], some msg.Chat.ID⟩ := by
            unfold cmdJoin
            simp only [hd', hch, hg]
            simp [hone]
          unfold joinEvent
          rw [hres]
          simp only
          unfold admission
          simp only [store_same]
          by_cases hfree : b.gameQueue < env.queueCap
          · right
            simp [fam100Bot.store, hfree, armTimers, Effect.admitted]
          · left
            by_cases hq : shouldBeQueued env msg.Chat.ID = true
            · simp [fam100Bot.store, hfree, hq, Effect.admitted]
            · have hq' : shouldBeQueued env msg.Chat.ID = false := by simpa using hq
              simp [fam100Bot.store, hfree, hq', armTimers, Effect.admitted]
    | some ch =>
      left
      by_cases hq : ch.game.State = State.Queued
      · unfold joinEvent cmdJoin
        simp only [hd', hch]
        simp [hq, fam100Bot.store]
      · by_cases hc : ch.game.State = State.Created
        · have hdis : (env.ChannelConfig msg.Chat.ID (lit "disabled") []).1 = [] := by
            unfold handleDisabled at hd'
            simp only at hd'
            split_ifs at hd' with h
            exact not_not.1 h
          rw [joinEvent_created env b msg ch hdis hch hc]
          split_ifs <;> simp [Effect.admitted, fam100Bot.store]
        · have := joinEvent_idle env b msg ch hch hq hc
          refine ⟨by rw [this.1], ?_⟩
          intro x hx
          rw [List.mem_filterMap] at hx
          obtain ⟨e, he, hex⟩ := hx
          obtain ⟨m, rfl⟩ := this.2 e he
          simp [Effect.admitted] at hex

theorem runJoins_slots (env : Env) (msgs : List Message) (b : fam100Bot) (effs : List Effect)
    (h1 : b.gameQueue ≤ env.queueCap)
    (h2 : ((effs.filterMap Effect.admitted).filter (shouldBeQueued env)).toFinset.card
      ≤ b.gameQueue) :
    (runJoins env b msgs).1.gameQueue ≤ env.queueCap ∧
    (((effs ++ (runJoins env b msgs).2).filterMap Effect.admitted).filter
      (shouldBeQueued env)).toFinset.card ≤ (runJoins env b msgs).1.gameQueue := by
  induction msgs generalizing b effs with
  | nil =>
    simp only [runJoins, List.append_nil]
    exact ⟨h1, h2⟩
  | cons m rest ih =>
    have step : (joinEvent env b m).1.gameQueue ≤ env.queueCap ∧
        (((effs ++ (joinEvent env b m).2).filterMap Effect.admitted).filter
          (shouldBeQueued env)).toFinset.card ≤ (joinEvent env b m).1.gameQueue := by
      simp only [List.filterMap_append, List.filter_append, List.toFinset_append]
      rcases joinEvent_slots env b m with ⟨hg, hs⟩ | ⟨hfree, hg, hs⟩
      · rw [hg]
        refine ⟨h1, ?_⟩
        have hnil : ((joinEvent env b m).2.filterMap Effect.admitted).filter
            (shouldBeQueued env) = [] := by
          rw [List.filter_eq_nil_iff]
          intro x hx
          rw [hs x hx]
          decide
        rw [hnil]
        simpa using h2
      · rw [hg, hs]
        refine ⟨hfree, le_trans (Finset.card_union_le _ _) ?_⟩
        have : ([m.Chat.ID].filter (shouldBeQueued env)).toFinset.card ≤ 1 := by
          by_cases hk : shouldBeQueued env m.Chat.ID = true <;> simp [List.filter, hk]
        omega
    have := ih (joinEvent env b m).1 (effs ++ (joinEvent env b m).2) step.1 step.2
    simp only [runJoins]
    rw [← List.append_assoc]
    exact this


/-! ## Lemmas on the channel listing -/

theorem channelsBody_head (entries : List (GoString × GoString)) :
    channelsBody entries = [] ∨ ∃ t, channelsBody entries = 10 :: t := by
  cases entries with
  | nil => exact Or.inl rfl
  | cons e rest =>
    right
    have h : lit "\n" = [10] := by decide
    simp [channelsBody, h]

theorem truncateBody_long (body : GoString) (t : GoString) (hb : body = 10 :: t)
    (hlen : body.length > 3000) :
    ∃ (k : Nat) (rest : GoString),
      LastIndex (body.take 3000) (lit "\n") = (k : Int) ∧ k < 3000 ∧
      body = body.take k ++ lit "\n" ++ rest ∧
      truncateBody body = some (body.take k ++ lit "\n ... truncated") := by
  have hnl : lit "\n" = [10] := by decide
  have h0 : 0 ≤ LastIndex (body.take 3000) [10] := by
    rw [hb]
    simp only [List.take_succ_cons]
    exact LastIndex_head 10 _
  have h1 : LastIndex (body.take 3000) [10] < (body.take 3000).length := LastIndex_lt 10 _
  have hl : (body.take 3000).length = 3000 := by
    rw [List.length_take]; omega
  obtain ⟨k, hk⟩ := Int.eq_ofNat_of_zero_le h0
  have hk3 : k < 3000 := by omega
  have hdrop := LastIndex_get 10 (body.take 3000) k hk
  refine ⟨k, (body.drop (k + 1)), ?_, hk3, ?_, ?_⟩
  · rw [hnl]; exact hk
  · rw [hnl]
    have h2 : (body.take 3000).drop k = 10 :: (body.take 3000).drop (k + 1) := hdrop
    have h3 : body.drop k = 10 :: body.drop (k + 1) := by
      have hk' : k < body.length := by omega
      have hkt : k < (body.take 3000).length := by omega
      have e0 := List.drop_eq_getElem_cons hkt
      rw [h2] at e0
      have e1 : (body.take 3000)[k] = 10 := (List.cons.inj e0).1.symm
      rw [List.getElem_take] at e1
      rw [List.drop_eq_getElem_cons hk', e1]
    conv_lhs => rw [← List.take_append_drop k body, h3]
    simp
  · unfold truncateBody
    rw [if_pos hlen]
    have s1 : sliceTo body 3000 = some (body.take 3000) := by
      unfold sliceTo
      rw [if_pos]
      · rfl
      · constructor
        · omega
        · exact_mod_cast le_of_lt hlen
    rw [s1]
    simp only
    have s2 : sliceTo (body.take 3000) (LastIndex (body.take 3000) (lit "\n"))
        = some (body.take k) := by
      rw [hnl, hk]
      unfold sliceTo
      rw [if_pos]
      · simp only [Int.toNat_ofNat, List.take_take]
        rw [min_eq_left (le_of_lt hk3)]
      · constructor
        · omega
        · rw [hl]; exact_mod_cast le_of_lt hk3
    rw [s2]


/-! ## Claims -/

/-- C1, as stated, fails: the game of a fresh channel is not started although
the distinct players reached `minQuorum` (1) when the channel waits in the
queue for a slot (queue full, queuing enabled, new game in state `Queued`),
(2) when the channel is disabled, (3) when the game cannot be built, and
(4) for `minQuorum = 0`, where one join is already at quorum. -/
theorem join_sequence_not_started_at_quorum :
    ¬ startedIffQuorum exampleEnv createdBot (lit "Y") threeJoins ∧
    ¬ startedIffQuorum disabledEnv emptyBot (lit "Y") threeJoins ∧
    ¬ startedIffQuorum { exampleEnv with NewGame := fun _ _ => none } emptyBot (lit "Y")
        threeJoins ∧
    ¬ startedIffQuorum { exampleEnv with minQuorum := 0 } emptyBot (lit "Y")
        [joinMsg (lit "Y") (lit "p1")] := by
  unfold startedIffQuorum distinctPlayers
  refine ⟨?_, ?_, ?_, ?_⟩ <;> decide

/-- C1, amended: for every sequence of join events on a channel id `c` with no
entry in `b.channels`, when the channel is not disabled, its game can be
built, `minQuorum` is at least 1 and the admission step does not have to wait
(a slot of `gameQueue` is free or the channel is not to be queued), the game
has been started at the end of the sequence if and only if the number of
distinct player ids in the sequence has reached `minQuorum`. -/
theorem game_started_iff_quorum_when_admitted (env : Env) (b : fam100Bot) (c : GoString)
    (msgs : List Message)
    (hmsgs : ∀ m ∈ msgs, m.Chat.ID = c)
    (hfresh : b.channels c = none)
    (hdis : (env.ChannelConfig c (lit "disabled") []).1 = [])
    (hnew : ∀ m ∈ msgs, env.NewGame c m.Chat.Title ≠ none)
    (hadm : b.gameQueue < env.queueCap ∨ shouldBeQueued env c = false)
    (hq : 1 ≤ env.minQuorum) :
    startedIffQuorum env b c msgs := by
  unfold startedIffQuorum distinctPlayers
  cases msgs with
  | nil =>
    simp only [runJoins, List.not_mem_nil, List.map_nil, List.dedup_nil, List.length_nil,
      false_iff, not_le]
    exact_mod_cast hq
  | cons m rest =>
    have hm : m.Chat.ID = c := hmsgs m (List.mem_cons_self _ _)
    have hrest : ∀ x ∈ rest, x.Chat.ID = c := fun x hx => hmsgs x (List.mem_cons_of_mem _ hx)
    obtain ⟨game, hgame⟩ := Option.ne_none_iff_exists'.1 (hnew m (List.mem_cons_self _ _))
    have hfirst := cmdJoin_first env b m game (by rw [hm]; exact hdis) (by rw [hm]; exact hfresh)
      (by rw [hm]; exact hgame)
    rw [hm] at hfirst
    rw [← List.card_toFinset]
    simp only [runJoins, joinEvent]
    by_cases h1 : (1 : Int) = env.minQuorum
    · rw [if_pos h1] at hfirst
      rw [hfirst]
      simp only [List.mem_append, List.mem_singleton, true_or, true_iff]
      have hpos : 0 < ((m :: rest).map (fun m => m.From.ID)).toFinset.card := by
        rw [Finset.card_pos]
        exact ⟨m.From.ID, by simp⟩
      omega
    · rw [if_neg h1] at hfirst
      rw [hfirst]
      simp only
      have ha := admission_admitted env (b.store c (newChannel m game)) c (newChannel m game)
        (store_same _ _ _) hadm
      rw [ha.1]
      have hno : Effect.gameStart c ∉ ([] : List Effect) ++
          [Effect.setCreated c, Effect.startQuorumTimer c env.quorumWait,
            Effect.startQuorumNotifyTimer c 5] := by simp
      rw [List.mem_append, or_iff_right hno]
      have hmain := runJoins_created env c rest
        (admission env (b.store c (newChannel m game)) c).1
        { newChannel m game with
          game := { (newChannel m game).game with State := State.Created },
          cancelNotifyTimer := true }
        hdis hrest ha.2 rfl (by simp [newChannel])
        (by simp only [newChannel, List.length_singleton]; omega)
      rw [hmain]
      simp [newChannel, Finset.insert_eq]

theorem game_started_iff_quorum_when_admitted_witness :
    startedIffQuorum exampleEnv emptyBot (lit "Y") threeJoins :=
  game_started_iff_quorum_when_admitted exampleEnv emptyBot (lit "Y") threeJoins
    (by decide) rfl (by decide) (by decide) (Or.inl (by decide)) (by decide)

/-- C2: for a channel whose game state is `Created` and whose `quorumPlayer`
set has fewer than `minQuorum` members, a `cmdJoin` by a player not yet in the
set that brings the set size to `minQuorum` cancels the expiry timer, cancels
the notify timer when one is set, calls `game.Start()` exactly once, arms no
timer and starts no goroutine; it returns true and stores the player. -/
theorem cmdJoin_reaching_quorum_starts_game (env : Env) (b : fam100Bot) (msg : Message)
    (ch : channel)
    (hch : b.channels msg.Chat.ID = some ch)
    (hst : ch.game.State = State.Created)
    (hlt : (ch.quorumPlayer.length : Int) < env.minQuorum)
    (hnew : msg.From.ID ∉ ch.quorumPlayer)
    (hreach : ∃ ch', (cmdJoin env b msg).b.channels msg.Chat.ID = some ch' ∧
      (ch'.quorumPlayer.length : Int) = env.minQuorum) :
    (cmdJoin env b msg).effects =
        [Effect.cancelTimer msg.Chat.ID]
          ++ (if ch.cancelNotifyTimer then [Effect.cancelNotifyTimer msg.Chat.ID] else [])
          ++ [Effect.gameStart msg.Chat.ID] ∧
      (cmdJoin env b msg).effects.count (Effect.gameStart msg.Chat.ID) = 1 ∧
      (∀ w, Effect.startQuorumTimer msg.Chat.ID w ∉ (cmdJoin env b msg).effects ∧
        Effect.startQuorumNotifyTimer msg.Chat.ID w ∉ (cmdJoin env b msg).effects) ∧
      (cmdJoin env b msg).spawned = none ∧
      (cmdJoin env b msg).ret = true ∧
      (cmdJoin env b msg).b.channels msg.Chat.ID =
        some { ch with
          quorumPlayer := ch.quorumPlayer ++ [msg.From.ID],
          players := Function.update ch.players msg.From.ID (some msg.From.FullName),
          game := ch.game.Start } := by
  have hdis : (handleDisabled env msg).1 = false := by
    by_contra hd
    have hd' : (handleDisabled env msg).1 = true := by simpa using hd
    obtain ⟨ch', h1, h2⟩ := hreach
    unfold cmdJoin at h1
    simp only [hd', if_true] at h1
    rw [hch] at h1
    cases h1
    omega
  have hlen : ((setKey ch.quorumPlayer msg.From.ID).length : Int) ≥ env.minQuorum := by
    obtain ⟨ch', h1, h2⟩ := hreach
    by_contra hlt2
    unfold cmdJoin at h1
    simp only [hdis, hch, hst] at h1
    simp [hlt2, fam100Bot.store] at h1
    rw [← h1] at h2
    simp at h2
    omega
  have hkey : setKey ch.quorumPlayer msg.From.ID = ch.quorumPlayer ++ [msg.From.ID] := by
    simp [setKey, hnew]
  have hres : cmdJoin env b msg =
      ⟨true, b.store msg.Chat.ID
          { ch with
            quorumPlayer := ch.quorumPlayer ++ [msg.From.ID],
            players := Function.update ch.players msg.From.ID (some msg.From.FullName),
            game := ch.game.Start },
        [Effect.cancelTimer msg.Chat.ID]
          ++ (if ch.cancelNotifyTimer then [Effect.cancelNotifyTimer msg.Chat.ID] else [])
          ++ [Effect.gameStart msg.Chat.ID], none⟩ := by
    unfold cmdJoin
    simp only [hdis, hch, hst]
    simp [hlen]
    simp [hkey]
  rw [hres]
  refine ⟨rfl, ?_, ?_, rfl, rfl, store_same _ _ _⟩
  · cases ch.cancelNotifyTimer <;> simp [List.count_cons]
  · intro w
    cases ch.cancelNotifyTimer <;> simp

theorem cmdJoin_reaching_quorum_starts_game_witness :
    (cmdJoin { exampleEnv with minQuorum := 2 } createdBot (joinMsg (lit "X") (lit "p2"))).effects
      = [Effect.cancelTimer (lit "X"), Effect.cancelNotifyTimer (lit "X"),
          Effect.gameStart (lit "X")] :=
  (cmdJoin_reaching_quorum_starts_game { exampleEnv with minQuorum := 2 } createdBot
    (joinMsg (lit "X") (lit "p2"))
    { ID := lit "X", game := ⟨0, State.Created⟩, quorumPlayer := [lit "p1"],
      players := Function.update (fun _ => none) (lit "p1") (some []),
      cancelNotifyTimer := true }
    rfl rfl (by decide) (by decide) ⟨_, rfl, by decide⟩).1

/-- C3, evaluated on the code: in the state after player "p1" joined channel
"X" (game `Created`, "p1" in `quorumPlayer`, quorum 3), a repeated `cmdJoin`
by "p1" returns true and leaves `quorumPlayer` as it is, but it cancels the
expiry timer and arms it again. -/
theorem repeated_join_rearms_expiry_timer :
    (createdBot.channels (lit "X")).map (fun ch => (ch.game.State, ch.quorumPlayer))
        = some (State.Created, [lit "p1"]) ∧
      (cmdJoin exampleEnv createdBot (joinMsg (lit "X") (lit "p1"))).ret = true ∧
      ((cmdJoin exampleEnv createdBot (joinMsg (lit "X") (lit "p1"))).b.channels (lit "X")).map
          (fun ch => ch.quorumPlayer) = some [lit "p1"] ∧
      (cmdJoin exampleEnv createdBot (joinMsg (lit "X") (lit "p1"))).effects =
        [Effect.cancelTimer (lit "X"), Effect.startQuorumTimer (lit "X") 120] := by
  refine ⟨?_, ?_, ?_, ?_⟩ <;> decide

/-- C4, as stated, fails: with one slot, two channels are admitted when the
second is configured `queued = "no"`, and two games are started when
`minQuorum` is 1 (the first join starts the game before any admission). -/
theorem admitted_channels_exceed_capacity :
    ¬ (admittedOrStarted (fun _ => true)
        (runJoins bypassEnv emptyBot
          [joinMsg (lit "X") (lit "p1"), joinMsg (lit "Z") (lit "p2")]).2).length
      ≤ bypassEnv.queueCap ∧
    ¬ (admittedOrStarted (fun _ => true)
        (runJoins { exampleEnv with minQuorum := 1 } emptyBot
          [joinMsg (lit "X") (lit "p1"), joinMsg (lit "Y") (lit "p2")]).2).length
      ≤ exampleEnv.queueCap := by
  constructor <;> decide

/-- C4, amended: in every state reachable by join events from the empty state
(no slot released), the occupied slots of `gameQueue` are at most its
capacity, and so is the number of channels admitted by the admission step
whose queued configuration is not "no"; when new games are built in state
`Queued` and `minQuorum` is not 1, the same bound holds for the channels whose
game has been admitted or started and whose queued configuration is not "no". -/
theorem queued_admissions_within_capacity (env : Env) (msgs : List Message) :
    (runJoins env emptyBot msgs).1.gameQueue ≤ env.queueCap ∧
    (admittedChannels (shouldBeQueued env) (runJoins env emptyBot msgs).2).length
      ≤ env.queueCap ∧
    ((∀ c t g, env.NewGame c t = some g → g.State = State.Queued) → env.minQuorum ≠ 1 →
      (admittedOrStarted (shouldBeQueued env) (runJoins env emptyBot msgs).2).length
        ≤ env.queueCap) := by
  have hs := runJoins_slots env msgs emptyBot [] (Nat.zero_le _) (by simp)
  refine ⟨hs.1, ?_, ?_⟩
  · unfold admittedChannels
    rw [← List.card_toFinset]
    simpa using le_trans hs.2 hs.1
  · intro hNew hmin
    have h := runJoins_invariant env hNew hmin msgs emptyBot [] (Nat.zero_le _) (by simp)
      (by intro c ch hc; simp [emptyBot] at hc)
    unfold admittedOrStarted
    rw [← List.card_toFinset]
    simpa using le_trans h.2 h.1

theorem queued_admissions_within_capacity_witness :
    (admittedOrStarted (shouldBeQueued bypassEnv)
        (runJoins bypassEnv emptyBot
          [joinMsg (lit "X") (lit "p1"), joinMsg (lit "Z") (lit "p2")]).2).length
      ≤ bypassEnv.queueCap :=
  (queued_admissions_within_capacity bypassEnv
    [joinMsg (lit "X") (lit "p1"), joinMsg (lit "Z") (lit "p2")]).2.2
    (fun _ _ _ h => by cases h; rfl) (by decide)

/-- C5: when the first join of a channel reaches the admission step (the call
of `cmdJoin` started the goroutine) and finds `gameQueue` full, then, if the
lookup of the "queued" configuration succeeds with the value "no", the step
sets the game state to `Created`, leaves the occupied slots unchanged, sends
nothing and arms the expiry and the notify timer; for any other value or a
failed lookup the channel is queued: the notice is sent, the goroutine waits
for a slot, and the game is left as built. -/
theorem first_join_on_full_queue (env : Env) (b : fam100Bot) (msg : Message)
    (hspawn : (cmdJoin env b msg).spawned = some msg.Chat.ID)
    (hfull : env.queueCap ≤ b.gameQueue) :
    (env.ChannelConfig msg.Chat.ID (lit "queued") [] = (lit "no", none) →
      (joinEvent env b msg).2 =
          [Effect.setCreated msg.Chat.ID, Effect.startQuorumTimer msg.Chat.ID env.quorumWait,
            Effect.startQuorumNotifyTimer msg.Chat.ID 5] ∧
        (joinEvent env b msg).1.gameQueue = b.gameQueue ∧
        ∃ ch, (joinEvent env b msg).1.channels msg.Chat.ID = some ch ∧
          ch.game.State = State.Created ∧ ch.quorumPlayer = [msg.From.ID] ∧
          ch.cancelNotifyTimer = true) ∧
    (env.ChannelConfig msg.Chat.ID (lit "queued") [] ≠ (lit "no", none) →
      (joinEvent env b msg).2 =
          [Effect.send (outMessage msg.Chat.ID env.queuedText Format.HTML (some 5)),
            Effect.queueWait msg.Chat.ID] ∧
        (joinEvent env b msg).1.gameQueue = b.gameQueue ∧
        ∃ game, env.NewGame msg.Chat.ID msg.Chat.Title = some game ∧
          (joinEvent env b msg).1.channels msg.Chat.ID = some (newChannel msg game)) := by
  obtain ⟨_, _, game, hgame, hres⟩ := cmdJoin_spawned env b msg _ hspawn
  have hnot : ¬ b.gameQueue < env.queueCap := by omega
  constructor
  · intro hconf
    have hq : shouldBeQueued env msg.Chat.ID = false := by
      simp [shouldBeQueued, hconf]
    unfold joinEvent
    rw [hres]
    simp only
    unfold admission
    simp only [store_same]
    simp [fam100Bot.store, hnot, hq, armTimers, newChannel]
  · intro hconf
    have hq : shouldBeQueued env msg.Chat.ID = true := by
      unfold shouldBeQueued
      rcases hc : env.ChannelConfig msg.Chat.ID (lit "queued") [] with ⟨v, e⟩
      cases e with
      | some e => rfl
      | none =>
        simp only [Bool.not_eq_true', decide_eq_false_iff_not]
        intro hv
        apply hconf
        rw [hc, hv]
    unfold joinEvent
    rw [hres]
    simp only
    unfold admission
    simp only [store_same]
    simp [fam100Bot.store, hnot, hq]
    exact ⟨game, hgame, rfl⟩

theorem first_join_on_full_queue_witness :
    (joinEvent bypassEnv createdBot (joinMsg (lit "Z") (lit "p2"))).2 =
        [Effect.setCreated (lit "Z"), Effect.startQuorumTimer (lit "Z") 120,
          Effect.startQuorumNotifyTimer (lit "Z") 5] ∧
      (joinEvent bypassEnv createdBot (joinMsg (lit "Z") (lit "p2"))).1.gameQueue
        = createdBot.gameQueue :=
  have h := (first_join_on_full_queue bypassEnv createdBot (joinMsg (lit "Z") (lit "p2"))
    rfl (by decide)).1 (by decide)
  ⟨h.1, h.2.1⟩

/-- C6: for a key `k` with no stored timestamp, a cooldown `d` and any calls
of the rate limiter (calls for other keys may come in between, the call times
need not even increase), the call for `k` at time `t` that follows the calls
`pre` is allowed (`rateLimited` returns false) exactly when it is the first
call for `k` or `t ≥ tl + d`, where `tl` is the time of the most recent allowed
call for `k`; that time is the stored timestamp, it exists as soon as `k` was
called once, a rejected call leaves it alone and an allowed call replaces it
by `t`.  In particular the call at exactly `tl + d` is allowed. -/
theorem rateLimited_allowed_iff_cooldown_elapsed (d : Int) (m : LastCmdRequest)
    (k : GoString) (pre post : List RateCall) (cmd : GoString) (t : Int) (hm : m k = none) :
    let before := rateLimitedSeq d m pre
    let r := rateLimited before.2 t cmd k d
    (rateLimitedSeq d m (pre ++ ⟨cmd, k, t⟩ :: post)).1
        = before.1 ++ ⟨k, t, r.1⟩ :: (rateLimitedSeq d r.2 post).1 ∧
    (r.1 = false ↔
      ((∀ c ∈ pre, c.chatID ≠ k) ∨ ∃ tl, lastAllowed k before.1 = some tl ∧ tl + d ≤ t)) ∧
    (∀ tl, lastAllowed k before.1 = some tl → t = tl + d → r.1 = false) ∧
    ((∃ c ∈ pre, c.chatID = k) → ∃ tl, lastAllowed k before.1 = some tl) ∧
    before.2 k = lastAllowed k before.1 ∧
    (r.1 = true → r.2 k = before.2 k) ∧
    (r.1 = false → r.2 k = some t) := by
  intro before r
  have hst : before.2 k = lastAllowed k before.1 := by
    have := rateLimitedSeq_stored d k pre m
    rw [hm] at this
    rw [this]
    cases lastAllowed k (rateLimitedSeq d m pre).1 <;> rfl
  have hf := rateLimited_fst before.2 t cmd k d
  have hiff : r.1 = false ↔
      ((∀ c ∈ pre, c.chatID ≠ k) ∨ ∃ tl, lastAllowed k before.1 = some tl ∧ tl + d ≤ t) := by
    rw [hf.1, hst]
    by_cases hex : ∃ c ∈ pre, c.chatID = k
    · obtain ⟨tl, htl⟩ := lastAllowed_some_of_call d k pre m hm hex
      rw [htl]
      constructor
      · intro h
        exact Or.inr ⟨tl, rfl, h⟩
      · rintro (h | ⟨tl2, h2, h3⟩)
        · obtain ⟨c, hc, hck⟩ := hex
          exact absurd hck (h c hc)
        · cases h2
          exact h3
    · have hno : ∀ c ∈ pre, c.chatID ≠ k := fun c hc hck => hex ⟨c, hc, hck⟩
      rw [lastAllowed_none_of_no_call d k pre m hno]
      simp only [true_iff]
      exact Or.inl hno
  refine ⟨?_, hiff, ?_, lastAllowed_some_of_call d k pre m hm, hst, hf.2.1, hf.2.2⟩
  · rw [rateLimitedSeq_append]
    simp [rateLimitedSeq, before, r]
  · intro tl htl ht
    exact hiff.2 (Or.inr ⟨tl, htl, le_of_eq ht.symm⟩)

theorem rateLimited_allowed_iff_cooldown_elapsed_witness :
    (rateLimitedSeq 30 (fun _ => none)
        ([⟨lit "help", lit "1", 0⟩, ⟨lit "help", lit "1", 10⟩] ++
          ⟨lit "score", lit "1", 30⟩ :: [⟨lit "help", lit "1", 59⟩])).1
      = [⟨lit "1", 0, false⟩, ⟨lit "1", 10, true⟩, ⟨lit "1", 30, false⟩,
          ⟨lit "1", 59, true⟩] := by
  have h := (rateLimited_allowed_iff_cooldown_elapsed 30 (fun _ => none) (lit "1")
    [⟨lit "help", lit "1", 0⟩, ⟨lit "help", lit "1", 10⟩] [⟨lit "help", lit "1", 59⟩]
    (lit "score") 30 rfl).1
  rw [h]
  decide

/-- C7, evaluated on the code: for a `/channels` message with a non-empty
pattern that does not compile, when the store returns at least one channel,
`cmdChannels` reports "regex failed." to the originating chat and then runs
into the panic of using the nil compiled pattern: it does not return. -/
theorem cmdChannels_bad_pattern_panics (env : ChannelsEnv) (msg : Message) (err : GoString)
    (hfields : ¬ ((SplitN msg.Text (lit " ") 2).length < 2 ∨
      (SplitN msg.Text (lit " ") 2).getD 1 [] = []))
    (hcomp : env.Compile ((SplitN msg.Text (lit " ") 2).getD 1 []) = Except.error err)
    (hne : env.range env.Channels.1 ≠ []) :
    (cmdChannels env msg).ret = none ∧
      (cmdChannels env msg).out.getLast? =
        some (outMessage msg.Chat.ID (lit "regex failed. " ++ err) Format.Markdown none) := by
  have hm : matchEntries none (env.range env.Channels.1) = none := by
    cases h : env.range env.Channels.1 with
    | nil => exact absurd h hne
    | cons e rest => rfl
  unfold cmdChannels
  simp only [hfields, if_false, hcomp, regexpOf, hm]
  simp

theorem cmdChannels_bad_pattern_panics_witness :
    (cmdChannels channelsDemo (textMsg "/channels (")).ret = none ∧
      (cmdChannels channelsDemo (textMsg "/channels (")).out.getLast? =
        some (outMessage (lit "me")
          (lit "regex failed. " ++ lit "error parsing regexp: missing closing ): `(`")
          Format.Markdown none) :=
  cmdChannels_bad_pattern_panics channelsDemo (textMsg "/channels (")
    (lit "error parsing regexp: missing closing ): `(`") (by decide) rfl (by decide)

/-- C8, evaluated on the code: for the texts "/channels" and "/channels "
(empty pattern) `cmdChannels` sends the usage line and returns; it lists no
channel, whatever the store holds. -/
theorem cmdChannels_empty_pattern_is_usage (env : ChannelsEnv) (msg : Message)
    (h : msg.Text = lit "/channels" ∨ msg.Text = lit "/channels ") :
    cmdChannels env msg =
      ⟨[outMessage msg.Chat.ID (lit "usage: `/channels [regex pattern]`") Format.Markdown none],
        some true⟩ := by
  unfold cmdChannels
  rcases h with h | h <;> rw [h] <;> rfl

theorem cmdChannels_empty_pattern_is_usage_witness :
    cmdChannels channelsDemo (textMsg "/channels") =
      ⟨[outMessage (lit "me") (lit "usage: `/channels [regex pattern]`") Format.Markdown none],
        some true⟩ :=
  cmdChannels_empty_pattern_is_usage channelsDemo (textMsg "/channels") (Or.inl rfl)

/-- C9: `escape s` is the byte-by-byte substitution `&` to `&amp;`, `<` to
`&lt;`, `>` to `&gt;` (the three sequential replacements never re-escape an
entity they produced); hence `escape` distributes over concatenation and its
result contains neither `<` (byte 60) nor `>` (byte 62). -/
theorem escape_is_bytewise_substitution (s t : GoString) :
    escape s = s.flatMap escapeByte ∧
    escape (s ++ t) = escape s ++ escape t ∧
    60 ∉ escape s ∧ 62 ∉ escape s := by
  refine ⟨escape_eq_flatMap s, ?_, ?_, ?_⟩
  · simp [escape_eq_flatMap]
  · intro h
    rw [escape_eq_flatMap, List.mem_flatMap] at h
    obtain ⟨c, _, hc⟩ := h
    exact (escapeByte_no_angle c 60 hc).1 rfl
  · intro h
    rw [escape_eq_flatMap, List.mem_flatMap] at h
    obtain ⟨c, _, hc⟩ := h
    exact (escapeByte_no_angle c 62 hc).2 rfl

/-- C10: whenever the two matching loops of `cmdChannels` complete, with
`kept` the entries written to the body, the truncation never slices out of
range and the handler returns true after sending "found N channels:" followed
by the final body.  A body of at most 3000 bytes is sent unchanged.  For a
longer body the last index `k` of "\n" in its first 3000 bytes is at least 0
(the body begins with "\n") and below 3000, the kept part is the prefix of the
body before that newline, and the final body, the kept part followed by
"\n ... truncated", is at most 3000 + len("\n ... truncated") bytes long. -/
theorem cmdChannels_truncation_in_range (env : ChannelsEnv) (msg : Message)
    (results kept : List (GoString × GoString))
    (hfields : ¬ ((SplitN msg.Text (lit " ") 2).length < 2 ∨
      (SplitN msg.Text (lit " ") 2).getD 1 [] = []))
    (hres : matchEntries (regexpOf (env.Compile ((SplitN msg.Text (lit " ") 2).getD 1 [])))
      (env.range env.Channels.1) = some results)
    (hkept : matchEntries (regexpOf (env.Compile ((SplitN msg.Text (lit " ") 2).getD 1 [])))
      (env.range results) = some kept) :
    ∃ final, truncateBody (channelsBody kept) = some final ∧
      (cmdChannels env msg).ret = some true ∧
      (cmdChannels env msg).out.getLast? =
        some (outMessage msg.Chat.ID
          (lit "found " ++ lit (toString results.length) ++ lit " channels:" ++ final)
          Format.Text none) ∧
      ((channelsBody kept).length ≤ 3000 → final = channelsBody kept) ∧
      ((channelsBody kept).length > 3000 →
        ∃ (k : Nat) (rest : GoString),
          LastIndex ((channelsBody kept).take 3000) (lit "\n") = (k : Int) ∧ k < 3000 ∧
          channelsBody kept = (channelsBody kept).take k ++ lit "\n" ++ rest ∧
          final = (channelsBody kept).take k ++ lit "\n ... truncated" ∧
          final.length ≤ 3000 + (lit "\n ... truncated").length) := by
  have hrun : ∀ final, truncateBody (channelsBody kept) = some final →
      (cmdChannels env msg).ret = some true ∧
      (cmdChannels env msg).out.getLast? =
        some (outMessage msg.Chat.ID
          (lit "found " ++ lit (toString results.length) ++ lit " channels:" ++ final)
          Format.Text none) := by
    intro final hfin
    unfold cmdChannels
    simp only [hfields, if_false, hres, hkept, hfin]
    simp
  by_cases hlen : (channelsBody kept).length > 3000
  · rcases channelsBody_head kept with h0 | ⟨t, ht⟩
    · rw [h0] at hlen
      simp at hlen
    · obtain ⟨k, rest, h1, h2, h3, h4⟩ := truncateBody_long (channelsBody kept) t ht hlen
      refine ⟨_, h4, (hrun _ h4).1, (hrun _ h4).2, fun h => absurd hlen (by omega), ?_⟩
      intro _
      refine ⟨k, rest, h1, h2, h3, rfl, ?_⟩
      rw [List.length_append, List.length_take]
      have : min k (channelsBody kept).length ≤ 3000 := by omega
      omega
  · have h4 : truncateBody (channelsBody kept) = some (channelsBody kept) := by
      unfold truncateBody
      rw [if_neg hlen]
    exact ⟨_, h4, (hrun _ h4).1, (hrun _ h4).2, fun _ => rfl, fun h => absurd h hlen⟩

theorem cmdChannels_truncation_in_range_witness :
    truncateBody (channelsBody [(lit "1", lit "one"), (lit "2", lit "two")])
        = some (channelsBody [(lit "1", lit "one"), (lit "2", lit "two")]) ∧
      (cmdChannels channelsDemo (textMsg "/channels o")).ret = some true := by
  obtain ⟨final, h1, h2, _, h4, _⟩ :=
    cmdChannels_truncation_in_range channelsDemo (textMsg "/channels o")
      [(lit "1", lit "one"), (lit "2", lit "two")] [(lit "1", lit "one"), (lit "2", lit "two")]
      (by decide) (by decide) (by decide)
  have hfinal : final = channelsBody [(lit "1", lit "one"), (lit "2", lit "two")] :=
    h4 (by decide)
  rw [hfinal] at h1
  exact ⟨h1, h2⟩

end Fam100
